import Mathlib

/-!
# Verification of the context-crawler core against its specification

Shallow embedding, in Lean 4, of the parts of the `context-crawler`
repository that the specification's quantified claims talk about:

* the persistent SQLite job queue (`src/queue.ts`): `claimNextJob`,
  `markCompleted`, `markFailed`, `resetStuckJobs`;
* the worker's retry-backoff computation (`src/worker.ts`, `processCrawlJob`);
* the output writer's token/byte segmentation (`core.ts`, `addContentOrSplit`
  inside `write`);
* the CLI's streaming job-level aggregation (`src/cli.ts`, `single` command);
* exclude-pattern expansion and glob matching (`core.ts`,
  `expandExcludePatterns` / `normalizeAndExpandExcludes`, minimatch call
  sites);
* output-path sanitization (`core.ts`, `ContextCrawlerCore` constructor,
  `join("output/jobs", basename(outputFileName))`);
* the HTTP submission handlers (`src/server.ts`, `POST /crawl` and
  `POST /crawl/batch`).

Modelling conventions:

* SQLite rows are Lean structures; the `queue` table is a `List QRow`
  (ordered by insertion, as rowid order); an SQL `UPDATE ... WHERE` is a
  `List.map` with a conditional, a `DELETE`/`SELECT ... WHERE` a filter.
* ISO-8601 timestamp strings (whose lexicographic order agrees with
  chronological order at a fixed format) are modelled as rationals (`Rat`),
  so that the millisecond arithmetic of `Date.now() + delay` is exact.
* JavaScript numbers appearing in the backoff arithmetic are modelled as
  rationals; `Math.pow(2, e)` on an integer exponent is `pow2Js`.
* `JSON.stringify`/`JSON.parse` round-trips of the queue payload are
  abstracted away: the `data` column holds the structured payload.
* JavaScript strings handled character-wise (paths, glob patterns) are
  modelled as `List Char`.
-/

namespace ContextCrawler

/-- Status column of a queue row (`src/queue.ts`, `QueueJobRecord.status`). -/
inductive QStatus where
  | pending
  | claimed
  | completed
  | failed
deriving DecidableEq, Repr

/-- The slice of the zod `configSchema` (`schema.ts`) that the verified
operations inspect.  Crawl-engine-only fields (`entry`, `match`, `selector`,
cookies, hooks, ...) are carried opaquely by the crawl and are omitted. -/
structure Config where
  name : String
  outputFileName : Option String
  maxFileSize : Option Nat
deriving DecidableEq, Repr

/-- Payload serialized into the queue's `data` column
(`src/queue.ts`, `CrawlJobData`). -/
structure CrawlJobData where
  config : Config
  jobName : String
deriving DecidableEq, Repr

/-- One row of the `queue` table (`src/queue.ts`, `QueueJobRecord`). -/
structure QRow where
  id : Nat
  jobId : String
  status : QStatus
  data : CrawlJobData
  priority : Int
  attempts : Nat
  maxAttempts : Nat
  nextRetryAt : Option Rat
  claimedAt : Option Rat
  completedAt : Option Rat
  error : Option String
  createdAt : Rat
deriving DecidableEq, Repr

/-- The value `claimNextJob` returns to the worker
(`src/queue.ts`, `QueueJob`; the stringification of the numeric row id is
dropped). -/
structure QueueJob where
  id : Nat
  jobId : String
  data : CrawlJobData
  attempts : Nat
  maxAttempts : Nat
deriving DecidableEq, Repr

/-- JavaScript `Math.pow 2 ·` at a natural exponent, as exact rational arithmetic. -/
def rpow2 : Nat → Rat
  | 0 => 1
  | n + 1 => 2 * rpow2 n

/-- JavaScript `Math.pow(2, e)` for an integer exponent `e` (JavaScript yields `0.5`
at `e = -1`), as exact rational arithmetic. -/
def pow2Js (e : Int) : Rat :=
  if 0 ≤ e then rpow2 e.toNat else 1 / rpow2 (-e).toNat

/-- The `WHERE status = 'pending' AND (nextRetryAt IS NULL OR nextRetryAt <= ?)`
filter of `claimNextJob` (`src/queue.ts:122-128`). -/
def isAvailable (now : Rat) (r : QRow) : Bool :=
  decide (r.status = QStatus.pending) &&
    match r.nextRetryAt with
    | none => true
    | some t => decide (t ≤ now)

/-- SQL `ORDER BY priority DESC, createdAt ASC`: `a` sorts strictly before `b`. -/
def sortsBefore (a b : QRow) : Bool :=
  decide (b.priority < a.priority) ||
    (decide (a.priority = b.priority) && decide (a.createdAt < b.createdAt))

/-- SQL `ORDER BY priority DESC, createdAt ASC LIMIT 1` over a candidate list;
on ties the earlier row in table order wins. -/
def selectTop : List QRow → Option QRow
  | [] => none
  | r :: rs =>
    match selectTop rs with
    | none => some r
    | some best => if sortsBefore best r then some best else some r

/-- The `UPDATE queue SET status='claimed', claimedAt=?, attempts=attempts+1
WHERE id = ?` applied to one row (`src/queue.ts:137-145`). -/
def claimRow (now : Rat) (qid : Nat) (r : QRow) : QRow :=
  if r.id = qid then
    { r with status := QStatus.claimed, claimedAt := some now,
             attempts := r.attempts + 1 }
  else r

/-- Model of `SQLiteQueue.claimNextJob` (`src/queue.ts:116-158`): one transaction that
selects the top available pending row, marks it claimed and returns it. -/
def claimNextJob (now : Rat) (rows : List QRow) : Option QueueJob × List QRow :=
  match selectTop (rows.filter (isAvailable now)) with
  | none => (none, rows)
  | some record =>
    (some { id := record.id, jobId := record.jobId, data := record.data,
            attempts := record.attempts + 1, maxAttempts := record.maxAttempts },
     rows.map (claimRow now record.id))

/-- Model of `SQLiteQueue.markCompleted` (`src/queue.ts:163-172`). -/
def markCompleted (now : Rat) (qid : Nat) (rows : List QRow) : List QRow :=
  rows.map fun r =>
    if r.id = qid then
      { r with status := QStatus.completed, completedAt := some now }
    else r

/-- The retry delay computed inside `markFailed`
(`src/queue.ts:194`, `backoffDelay * Math.pow(2, record.attempts - 1)`). -/
def markFailedDelay (backoffDelay : Rat) (attempts : Nat) : Rat :=
  backoffDelay * pow2Js ((attempts : Int) - 1)

/-- Model of `SQLiteQueue.markFailed` (`src/queue.ts:177-218`): re-reads the row by id;
with retries remaining it resets the row to `pending` with an exponential
`nextRetryAt`, otherwise it marks the row `failed`. -/
def markFailed (now : Rat) (qid : Nat) (error : String) (shouldRetry : Bool)
    (backoffDelay : Rat) (rows : List QRow) : List QRow :=
  match rows.find? (fun r => decide (r.id = qid)) with
  | none => rows
  | some record =>
    if shouldRetry && decide (record.attempts < record.maxAttempts) then
      let delay := markFailedDelay backoffDelay record.attempts
      rows.map fun r =>
        if r.id = qid then
          { r with status := QStatus.pending,
                   nextRetryAt := some (now + delay), error := some error }
        else r
    else
      rows.map fun r =>
        if r.id = qid then
          { r with status := QStatus.failed, completedAt := some now,
                   error := some error }
        else r

/-- The `WHERE status = 'claimed' AND claimedAt < ?` condition of
`resetStuckJobs` (`src/queue.ts:226-232`); an SQL `NULL < cutoff` is not
true, so a row without `claimedAt` never matches. -/
def stuckAt (cutoff : Rat) (r : QRow) : Bool :=
  decide (r.status = QStatus.claimed) &&
    match r.claimedAt with
    | none => false
    | some t => decide (t < cutoff)

/-- Row-by-row effect of the `resetStuckJobs` UPDATE, together with the
`result.changes` count. -/
def resetStuckRows (cutoff : Rat) : List QRow → Nat × List QRow
  | [] => (0, [])
  | r :: rs =>
    let rest := resetStuckRows cutoff rs
    if stuckAt cutoff r then
      (rest.1 + 1, { r with status := QStatus.pending, claimedAt := none } :: rest.2)
    else
      (rest.1, r :: rest.2)

/-- Model of `SQLiteQueue.resetStuckJobs` (`src/queue.ts:223-236`):
`cutoffTime = now - timeoutMs`, reset matching rows, return the change count. -/
def resetStuckJobs (now timeoutMs : Rat) (rows : List QRow) : Nat × List QRow :=
  resetStuckRows (now - timeoutMs) rows

/-- A sequence of `claimNextJob` transactions (one per invocation time),
serialized as the claim's "single serializable transaction" requirement
entails; returns every claimed job and the final table. -/
def claimMany (times : List Rat) (rows : List QRow) : List QueueJob × List QRow :=
  match times with
  | [] => ([], rows)
  | t :: ts =>
    match claimNextJob t rows with
    | (none, rows2) => claimMany ts rows2
    | (some j, rows2) =>
      let rest := claimMany ts rows2
      (j :: rest.1, rest.2)

/-! ## Worker retry backoff (`src/worker.ts`) -/

/-- The jitter factor `(0.5 + Math.random() * 0.5)` for a drawn
`rand = Math.random() ∈ [0, 1)` (`src/worker.ts:116`). -/
def jitterFactor (rand : Rat) : Rat :=
  1 / 2 + rand * (1 / 2)

/-- The value `backoffWithJitter` as computed by `processCrawlJob`
(`src/worker.ts:113-116`):
`BACKOFF_DELAY_MS * Math.pow(2, job.attempts - 1) * (0.5 + Math.random() * 0.5)`. -/
def workerBackoff (base : Rat) (attempts : Nat) (rand : Rat) : Rat :=
  base * pow2Js ((attempts : Int) - 1) * jitterFactor rand

/-- The delay that actually separates the failure instant from the row's
`nextRetryAt`: the worker's `backoffWithJitter` fed through `markFailed`'s
own exponential scaling (`src/worker.ts:119` into `src/queue.ts:194`). -/
def actualRetryDelay (base : Rat) (attempts : Nat) (rand : Rat) : Rat :=
  markFailedDelay (workerBackoff base attempts rand) attempts

/-- Modelled from the spec's words, for comparison with `actualRetryDelay`:
the delay the claim asserts, `BACKOFF_DELAY_MS * 2^(attempts-1)` scaled by
the jitter factor. -/
def specRetryDelay (base : Rat) (attempts : Nat) (rand : Rat) : Rat :=
  base * pow2Js ((attempts : Int) - 1) * jitterFactor rand

/-! ## Output writer (`core.ts`, `write` / `addContentOrSplit`)

A crawled record enters the writer only through the two external measures
the code takes of its JSON serialization: the GPT-tokenizer token count of
`JSON.stringify(data)` and `Buffer.byteLength` of the same string.  A record
is therefore modelled by those two numbers plus an identifying tag. -/

/-- A crawled record as the output writer sees it. -/
structure RecordM where
  tag : Nat
  tokens : Nat
  bytes : Nat
deriving DecidableEq, Repr

/-- Accumulator state of `write` (`core.ts`): the pending batch, its byte
size, the file counter, the running token estimate, and the list of record
batches already written out as segments. -/
structure WriteState where
  currentResults : List RecordM
  currentSize : Nat
  fileCounter : Nat
  estimatedTokens : Nat
  written : List (List RecordM)
deriving DecidableEq, Repr

/-- Initial accumulator of `write`: empty batch, size 0, counter 1,
estimate 0, nothing written. -/
def initWriteState : WriteState :=
  { currentResults := [], currentSize := 0, fileCounter := 1,
    estimatedTokens := 0, written := [] }

/-- Model of `writeBatchToFile` (`core.ts`): flush the pending batch as a new
segment; resets batch and byte size, bumps the counter.  (It does not touch
`estimatedTokens`.) -/
def writeBatchToFile (s : WriteState) : WriteState :=
  { s with written := s.written ++ [s.currentResults], currentResults := [],
           currentSize := 0, fileCounter := s.fileCounter + 1 }

/-- Behavior of `isWithinTokenLimit(text, limit)` from `gpt-tokenizer`: the token count
when the text is within the limit, and `false` (here `none`) otherwise. -/
def isWithinTokenLimit (tokenCount limit : Nat) : Option Nat :=
  if tokenCount ≤ limit then some tokenCount else none

/-- Model of `addContentOrSplit` (`core.ts`): token-cap handling followed by the
byte-cap check.  `maxTokens`/`maxBytes` are `none` for `"unlimited"` and
`Infinity` respectively. -/
def addContentOrSplit (maxTokens maxBytes : Option Nat) (d : RecordM)
    (s : WriteState) : WriteState :=
  let s1 :=
    match maxTokens with
    | some limit =>
      match isWithinTokenLimit d.tokens limit with
      | some tokenCount =>
        if limit < s.estimatedTokens + tokenCount then
          let s2 := if s.currentResults.isEmpty then s else writeBatchToFile s
          { s2 with estimatedTokens := tokenCount / 2,
                    currentResults := s2.currentResults ++ [d] }
        else
          { s with currentResults := s.currentResults ++ [d],
                   estimatedTokens := s.estimatedTokens + tokenCount }
      | none => s
    | none => { s with currentResults := s.currentResults ++ [d] }
  let s3 := { s1 with currentSize := s1.currentSize + d.bytes }
  match maxBytes with
  | some mb => if mb < s3.currentSize then writeBatchToFile s3 else s3
  | none => s3

/-- The whole of `write` (`core.ts`) at the record level: fold
`addContentOrSplit` over the dataset, then flush any remaining batch
(whether to the suffix-less file name or a numbered one, the flushed batch
is one more segment).  Returns the list of written segments. -/
def writeSegments (maxTokens maxBytes : Option Nat) (items : List RecordM) :
    List (List RecordM) :=
  let s := items.foldl (fun st d => addContentOrSplit maxTokens maxBytes d st)
    initWriteState
  if s.currentResults.isEmpty then s.written else s.written ++ [s.currentResults]

/-! ## Job-level streaming aggregation (`src/cli.ts`, `single` command) -/

/-- The parse of one successful task's transient output file:
`JSON.parse(content)` is either a JSON array or a single object
(`const items = Array.isArray(data) ? data : [data]`). -/
inductive ParsedJson (α : Type) where
  | arr (items : List α)
  | single (item : α)
deriving DecidableEq, Repr

/-- JavaScript `Array.isArray(data) ? data : [data]` (`src/cli.ts:185`). -/
def itemsOf {α : Type} : ParsedJson α → List α
  | .arr items => items
  | .single item => [item]

/-- The items a successfully read-and-parsed file contributes (zero for a
file whose read or parse threw). -/
def okItems {α : Type} : Except String (ParsedJson α) → List α
  | .ok d => itemsOf d
  | .error _ => []

/-- The aggregation loop of the CLI `single` command (`src/cli.ts:180-196`)
with its surrounding `try`/`catch` (`src/cli.ts:164-224`): each successful
task's file is read and parsed in submission order and its items streamed
out; the first file whose read or parse throws aborts the whole loop (the
`catch` sits outside it), leaving only the items streamed before the
failure.  Returns the streamed items and whether aggregation completed. -/
def streamAggregate {α : Type} :
    List (Except String (ParsedJson α)) → List α × Bool
  | [] => ([], true)
  | .ok d :: rest =>
    let r := streamAggregate rest
    (itemsOf d ++ r.1, r.2)
  | .error _ :: _ => ([], false)

/-- The aggregation step of the job runner (`src/cli.ts:162-230`): run only
when at least one task succeeded (`successCount > 0`), otherwise skipped
with no output file (`none`). -/
def aggregateJob {α : Type} (files : List (Except String (ParsedJson α))) :
    Option (List α × Bool) :=
  if files.isEmpty then none else some (streamAggregate files)

/-! ## Path sanitization (`core.ts`, `ContextCrawlerCore` constructor)

Node's `path.posix` semantics for the operations used:
`basename` and a `join` of two relative segments (concatenate, split on
`/`, drop empty and `.` components, let `..` pop, re-join).  Node's
preservation of one trailing slash after `join` is not modelled; it could
only matter for a right operand containing a trailing slash, and
`basename` never produces one. -/

/-- Split a character list on `/`, keeping empty components. -/
def splitSlash : List Char → List (List Char)
  | [] => [[]]
  | c :: rest =>
    let r := splitSlash rest
    if c = '/' then [] :: r
    else
      match r with
      | [] => [[c]]
      | s :: ss => (c :: s) :: ss

/-- Remove trailing `/` characters. -/
def dropTrailingSlashes (l : List Char) : List Char :=
  (l.reverse.dropWhile (fun c => decide (c = '/'))).reverse

/-- Node `path.basename` (posix): last component after stripping trailing
slashes; `"/"` for an all-slash path; `""` for the empty path. -/
def posixBasename (l : List Char) : List Char :=
  if l.isEmpty then []
  else
    let t := dropTrailingSlashes l
    if t.isEmpty then ['/']
    else (t.reverse.takeWhile (fun c => decide (c ≠ '/'))).reverse

/-- One step of `path.normalize`'s component resolution (stack held in
reverse): empty and `.` components vanish, `..` pops a poppable component
and is kept at the head of a relative path. -/
def normStep (stack : List (List Char)) (c : List Char) : List (List Char) :=
  if c = [] || c = ['.'] then stack
  else if c = ['.', '.'] then
    match stack with
    | [] => [['.', '.']]
    | top :: rest => if top = ['.', '.'] then c :: stack else rest
  else c :: stack

/-- Re-join components with `/` separators. -/
def renderPath : List (List Char) → List Char
  | [] => []
  | s :: rest =>
    match rest with
    | [] => s
    | _ :: _ => s ++ '/' :: renderPath rest

/-- Node `path.join(a, b)` for relative `a`: concatenate with a separator and
normalize; an empty result is `"."`. -/
def pathJoin (a b : List Char) : List Char :=
  let comps := splitSlash a ++ splitSlash b
  let stack := (comps.foldl normStep []).reverse
  if stack.isEmpty then ['.'] else renderPath stack

/-- The expression `join("output/jobs", basename(config.outputFileName))` — the sanitized
path the `ContextCrawlerCore` constructor computes for a user-supplied
`outputFileName` (`core.ts:999-1000`). -/
def sanitizeOutputFileName (f : List Char) : List Char :=
  pathJoin "output/jobs".toList (posixBasename f)

/-- Model of `generateOutputFileName` (`schema.ts:153-155`). -/
def generateOutputFileName (jobName : String) : String :=
  "output/jobs/" ++ jobName ++ ".json"

/-- The constructor's whole `sanitizedFileName` expression: a truthy
(non-empty) user-supplied name is sanitized, otherwise the name is derived
from the task name (`core.ts:998-1001`). -/
def coreSanitizedFileName (outputFileName : Option (List Char))
    (name : String) : List Char :=
  match outputFileName with
  | some f =>
    if f.isEmpty then (generateOutputFileName name).toList
    else sanitizeOutputFileName f
  | none => (generateOutputFileName name).toList

/-- Whether a (normalized) path lies strictly under `output/jobs/`:
`output/jobs/` is a proper prefix. -/
def liesStrictlyUnderOutputJobs (p : List Char) : Bool :=
  "output/jobs/".toList.isPrefixOf p &&
    decide ("output/jobs/".toList.length < p.length)

/-! ## Exclude-pattern expansion and glob matching (`core.ts`)

The glob matcher models the `minimatch` subset the spec fixes: `*` matches
any run of characters within one `/`-separated segment, a whole-segment
`**` matches any number of segments.  Matching is anchored. -/

/-- The test `pattern.includes("*")` (`core.ts:547`). -/
def hasStar (p : List Char) : Bool :=
  p.contains '*'

/-- The test `pattern.endsWith("/")` (`core.ts:547`). -/
def endsWithSlash (p : List Char) : Bool :=
  p.getLast? == some '/'

/-- JavaScript `Set.add` followed by `Array.from`: insertion order with duplicates
dropped. -/
def insertUnique (l : List (List Char)) (x : List Char) : List (List Char) :=
  if x ∈ l then l else l ++ [x]

/-- Model of `expandExcludePatterns` (`core.ts:539-553`): every pattern is kept, and
a pattern with no `*` and no trailing `/` additionally contributes
`pattern + "/**"`. -/
def expandExcludePatterns (patterns : List (List Char)) : List (List Char) :=
  patterns.foldl
    (fun acc p =>
      let acc1 := insertUnique acc p
      if !hasStar p && !endsWithSlash p then
        insertUnique acc1 (p ++ "/**".toList)
      else acc1)
    []

/-- The `string | string[] | undefined` shape of `config.exclude`. -/
inductive ExcludeArg where
  | undef
  | str (p : List Char)
  | arr (ps : List (List Char))
deriving Repr

/-- Model of `normalizeAndExpandExcludes` (`core.ts:559-562`). -/
def normalizeAndExpandExcludes : ExcludeArg → List (List Char)
  | .undef => expandExcludePatterns []
  | .str p => expandExcludePatterns [p]
  | .arr ps => expandExcludePatterns ps

/-- Glob matching of one `/`-free segment: `*` matches any run of
characters, any other character matches itself. -/
def segMatch : List Char → List Char → Bool
  | [], [] => true
  | [], _ :: _ => false
  | p :: ps, s =>
    if p = '*' then
      match s with
      | [] => segMatch ps []
      | _ :: s2 => segMatch ps s || segMatch (p :: ps) s2
    else
      match s with
      | [] => false
      | c :: s2 => decide (p = c) && segMatch ps s2
termination_by p s => (p.length, s.length)

/-- Glob matching over `/`-separated segments: a whole-segment `**`
matches any number of path segments. -/
def globMatch : List (List Char) → List (List Char) → Bool
  | [], [] => true
  | [], _ :: _ => false
  | p :: ps, ts =>
    if p = ['*', '*'] then
      match ts with
      | [] => globMatch ps []
      | _ :: ts2 => globMatch ps ts || globMatch (p :: ps) ts2
    else
      match ts with
      | [] => false
      | t :: ts2 => segMatch p t && globMatch ps ts2
termination_by ps ts => (ps.length, ts.length)

/-- Model of `minimatch(url, pattern)` in the modelled glob subset. -/
def minimatchB (url pattern : List Char) : Bool :=
  globMatch (splitSlash pattern) (splitSlash url)

/-- The exclude filter at the discovery and seed call sites
(`core.ts:605-608, 800-802`): a URL is rejected when it matches any
expanded exclude pattern. -/
def urlExcluded (url : List Char) (excludePatterns : List (List Char)) : Bool :=
  (expandExcludePatterns excludePatterns).any (fun pat => minimatchB url pat)

/-! ## Submission API (`src/server.ts`) -/

/-- Job-store record status (`job-store.ts`). -/
inductive JobStatus where
  | pending
  | running
  | completed
  | failed
deriving DecidableEq, Repr

/-- One job-store record (only the fields the submission path writes). -/
structure JobRecord where
  id : String
  status : JobStatus
  config : Config
deriving DecidableEq, Repr

/-- Model of `jobStore.createJob(jobId, config)`: insert a new `pending` record. -/
def createJob (jobId : String) (config : Config) (store : List JobRecord) :
    List JobRecord :=
  store ++ [{ id := jobId, status := JobStatus.pending, config := config }]

/-- The next `AUTOINCREMENT` row id of the queue table. -/
def nextQueueId (rows : List QRow) : Nat :=
  (rows.map QRow.id).foldl max 0 + 1

/-- The row `INSERT INTO queue ... VALUES (?, 'pending', ?, ?, ?, ?)`
creates. -/
def newQueueRow (now : Rat) (jobId : String) (data : CrawlJobData)
    (priority : Int) (maxAttempts : Nat) (rows : List QRow) : QRow :=
  { id := nextQueueId rows, jobId := jobId, status := QStatus.pending,
    data := data, priority := priority, attempts := 0,
    maxAttempts := maxAttempts, nextRetryAt := none, claimedAt := none,
    completedAt := none, error := none, createdAt := now }

/-- Model of `SQLiteQueue.add` (`src/queue.ts:86-110` with the UNIQUE-violation
branch of the second revision): inserting a `jobId` already present fails,
otherwise a fresh `pending` row is appended. -/
def queueAdd (now : Rat) (jobId : String) (data : CrawlJobData)
    (priority : Int) (maxAttempts : Nat) (rows : List QRow) :
    Except String (List QRow) :=
  if rows.any (fun r => decide (r.jobId = jobId)) then
    Except.error "Job with ID already exists in queue"
  else
    Except.ok (rows ++ [newQueueRow now jobId data priority maxAttempts rows])

/-- The server's persistent state: job store plus queue table. -/
structure ServerState where
  store : List JobRecord
  queue : List QRow
deriving DecidableEq, Repr

/-- The response statuses of the submission endpoints. -/
inductive CrawlResponse where
  | accepted202 (jobId : String) (jobName : String)
  | acceptedBatch202 (jobName : String) (configCount : Nat)
  | notFound404
  | badRequest400
  | serverError500
deriving DecidableEq, Repr

/-- The named-job branch of `POST /crawl` (`src/server.ts:146-216`): look
the job name up, take the FIRST config only, stamp the generated output
file name on it, create one job record, enqueue one entry.  The job record
is created before the enqueue, so a failed enqueue (duplicate `jobId`)
answers 500 with the record already stored, as in the code's `catch`. -/
def handleCrawlNamed (registry : String → List Config) (name : String)
    (jobId : String) (now : Rat) (st : ServerState) :
    CrawlResponse × ServerState :=
  match registry name with
  | [] => (CrawlResponse.notFound404, st)
  | config :: _ =>
    let configWithFileName :=
      { config with outputFileName := some (generateOutputFileName name) }
    let store2 := createJob jobId configWithFileName st.store
    match queueAdd now jobId
        { config := configWithFileName, jobName := name } 0 3 st.queue with
    | Except.ok q2 =>
      (CrawlResponse.accepted202 jobId name, { store := store2, queue := q2 })
    | Except.error _ =>
      (CrawlResponse.serverError500, { store := store2, queue := st.queue })

/-- The per-config loop of `POST /crawl/batch` (`src/server.ts:251-278`):
each config gets its own job id, job record and queue entry; an enqueue
error answers 500, keeping the side effects made so far. -/
def batchGo (now : Rat) (jobName : String) :
    List (String × Config) → ServerState → Bool × ServerState
  | [], st => (true, st)
  | (jobId, config) :: rest, st =>
    let configWithFileName :=
      { config with outputFileName := some (generateOutputFileName jobName) }
    let store2 := createJob jobId configWithFileName st.store
    match queueAdd now jobId
        { config := configWithFileName, jobName := jobName } 0 3 st.queue with
    | Except.ok q2 => batchGo now jobName rest { store := store2, queue := q2 }
    | Except.error _ => (false, { store := store2, queue := st.queue })

/-- Endpoint `POST /crawl/batch` (`src/server.ts:220-297`): enqueue EVERY config of
the named job, one entry each; `jobIds` supplies the per-config
`randomUUID()` draws. -/
def handleCrawlBatch (registry : String → List Config) (name : String)
    (jobIds : List String) (now : Rat) (st : ServerState) :
    CrawlResponse × ServerState :=
  match registry name with
  | [] => (CrawlResponse.notFound404, st)
  | configs =>
    let r := batchGo now name (jobIds.zip configs) st
    if r.1 then (CrawlResponse.acceptedBatch202 name configs.length, r.2)
    else (CrawlResponse.serverError500, r.2)

/-! ## Concrete fixtures used by counterexamples and witnesses -/

/-- A sample task config. -/
def sampleConfig : Config :=
  { name := "zod", outputFileName := none, maxFileSize := none }

/-- A sample queue payload. -/
def sampleData : CrawlJobData :=
  { config := sampleConfig, jobName := "zod" }

/-- Two sample task configs of a two-task job. -/
def sampleConfigA : Config :=
  { name := "zod-a", outputFileName := none, maxFileSize := none }

/-- Second sample task config. -/
def sampleConfigB : Config :=
  { name := "zod-b", outputFileName := none, maxFileSize := none }

/-- A sample configuration registry with one job of two tasks. -/
def sampleRegistry : String → List Config :=
  fun n => if n = "zod" then [sampleConfigA, sampleConfigB] else []

/-- A fresh pending queue row. -/
def baseRow : QRow :=
  { id := 1, jobId := "job-1", status := QStatus.pending, data := sampleData,
    priority := 0, attempts := 0, maxAttempts := 3, nextRetryAt := none,
    claimedAt := none, completedAt := none, error := none, createdAt := 0 }

end ContextCrawler

namespace ContextCrawler

/-- Change count of the stuck-job UPDATE: the number of WHERE-matching rows. -/
theorem resetStuckRows_count (cutoff : Rat) (rows : List QRow) :
    (resetStuckRows cutoff rows).1
      = (rows.filter (fun r => stuckAt cutoff r)).length := by
  induction rows with
  | nil => simp [resetStuckRows]
  | cons r rs ih =>
    by_cases h : stuckAt cutoff r = true
    · simp [resetStuckRows, h, List.filter, ih]
    · simp only [Bool.not_eq_true] at h
      simp [resetStuckRows, h, List.filter, ih]

/-- Row-by-row effect of the stuck-job UPDATE. -/
theorem resetStuckRows_forall2 (cutoff : Rat) (rows : List QRow) :
    List.Forall₂ (fun r r2 =>
        (stuckAt cutoff r = true →
          r2 = { r with status := QStatus.pending, claimedAt := none }) ∧
        (stuckAt cutoff r = false → r2 = r))
      rows (resetStuckRows cutoff rows).2 := by
  induction rows with
  | nil => simp [resetStuckRows]
  | cons r rs ih =>
    by_cases h : stuckAt cutoff r = true
    · simpa [resetStuckRows, h] using ih
    · simp only [Bool.not_eq_true] at h
      simp only [resetStuckRows, h]
      exact List.Forall₂.cons (by simp [h]) ih

end ContextCrawler

namespace ContextCrawler

/-- C8: `resetStuckJobs(timeoutMs)` sets `status='pending'` and
`claimedAt=NULL` for exactly those rows with `status='claimed'` and
`claimedAt < now - timeoutMs`, leaves `attempts` and every other field of
those rows unchanged, leaves all other rows entirely unchanged, and returns
the number of rows changed. -/
theorem c8_resetStuckJobs_exact (now timeoutMs : Rat) (rows : List QRow) :
    (resetStuckJobs now timeoutMs rows).1
      = (rows.filter (fun r => stuckAt (now - timeoutMs) r)).length ∧
    List.Forall₂ (fun r r2 =>
        (stuckAt (now - timeoutMs) r = true →
          r2 = { r with status := QStatus.pending, claimedAt := none }) ∧
        (stuckAt (now - timeoutMs) r = false → r2 = r) ∧
        r2.attempts = r.attempts ∧ r2.id = r.id ∧ r2.jobId = r.jobId ∧
        r2.data = r.data ∧ r2.priority = r.priority ∧
        r2.maxAttempts = r.maxAttempts ∧ r2.nextRetryAt = r.nextRetryAt ∧
        r2.completedAt = r.completedAt ∧ r2.error = r.error ∧
        r2.createdAt = r.createdAt)
      rows (resetStuckJobs now timeoutMs rows).2 := by
  refine ⟨resetStuckRows_count _ rows, ?_⟩
  refine (resetStuckRows_forall2 (now - timeoutMs) rows).imp ?_
  intro r r2 h
  refine ⟨h.1, h.2, ?_⟩
  by_cases hs : stuckAt (now - timeoutMs) r = true
  · rw [h.1 hs]
    simp
  · rw [h.2 (by simpa using hs)]
    simp

/-- Witness for C8 at a concrete queue: one stuck claimed row, one fresh
claimed row, one completed row. -/
theorem c8_witness :
    (resetStuckJobs 100000 30000
          [{ baseRow with status := QStatus.claimed, claimedAt := some 50000 },
           { baseRow with id := 2, status := QStatus.claimed, claimedAt := some 90000 },
           { baseRow with id := 3, status := QStatus.completed }]).1
        = ([{ baseRow with status := QStatus.claimed, claimedAt := some 50000 },
            { baseRow with id := 2, status := QStatus.claimed, claimedAt := some 90000 },
            { baseRow with id := 3, status := QStatus.completed }].filter
            (fun r => stuckAt (100000 - 30000) r)).length ∧
    List.Forall₂ (fun r r2 =>
        (stuckAt (100000 - 30000) r = true →
          r2 = { r with status := QStatus.pending, claimedAt := none }) ∧
        (stuckAt (100000 - 30000) r = false → r2 = r) ∧
        r2.attempts = r.attempts ∧ r2.id = r.id ∧ r2.jobId = r.jobId ∧
        r2.data = r.data ∧ r2.priority = r.priority ∧
        r2.maxAttempts = r.maxAttempts ∧ r2.nextRetryAt = r.nextRetryAt ∧
        r2.completedAt = r.completedAt ∧ r2.error = r.error ∧
        r2.createdAt = r.createdAt)
      [{ baseRow with status := QStatus.claimed, claimedAt := some 50000 },
       { baseRow with id := 2, status := QStatus.claimed, claimedAt := some 90000 },
       { baseRow with id := 3, status := QStatus.completed }]
      (resetStuckJobs 100000 30000
          [{ baseRow with status := QStatus.claimed, claimedAt := some 50000 },
           { baseRow with id := 2, status := QStatus.claimed, claimedAt := some 90000 },
           { baseRow with id := 3, status := QStatus.completed }]).2 :=
  c8_resetStuckJobs_exact 100000 30000
    [{ baseRow with status := QStatus.claimed, claimedAt := some 50000 },
     { baseRow with id := 2, status := QStatus.claimed, claimedAt := some 90000 },
     { baseRow with id := 3, status := QStatus.completed }]

end ContextCrawler

namespace ContextCrawler

/-- SQL `ORDER BY ... LIMIT 1` returns a row of the candidate list. -/
theorem selectTop_mem {l : List QRow} {r : QRow} (h : selectTop l = some r) :
    r ∈ l := by
  induction l with
  | nil => simp [selectTop] at h
  | cons a as ih =>
    unfold selectTop at h
    cases hs : selectTop as with
    | none =>
      rw [hs] at h
      simp only [Option.some.injEq] at h
      simp [← h]
    | some best =>
      rw [hs] at h
      by_cases hb : sortsBefore best a = true
      · simp only [hb, if_true, Option.some.injEq] at h
        subst h
        exact List.mem_cons_of_mem a (ih hs)
      · simp only [Bool.not_eq_true] at hb
        simp only [hb, Bool.false_eq_true, if_false, Option.some.injEq] at h
        simp [← h]

/-- Equation of `claimNextJob` when no candidate row exists. -/
theorem claimNextJob_eq_none {t : Rat} {rows : List QRow}
    (hs : selectTop (rows.filter (isAvailable t)) = none) :
    claimNextJob t rows = (none, rows) := by
  unfold claimNextJob
  rw [hs]

/-- Equation of `claimNextJob` when the top candidate is `record`. -/
theorem claimNextJob_eq_some {t : Rat} {rows : List QRow} {record : QRow}
    (hs : selectTop (rows.filter (isAvailable t)) = some record) :
    claimNextJob t rows
      = (some { id := record.id, jobId := record.jobId, data := record.data,
                attempts := record.attempts + 1,
                maxAttempts := record.maxAttempts },
         rows.map (claimRow t record.id)) := by
  unfold claimNextJob
  rw [hs]

/-- A successful claim: the returned job comes from a `pending` row of the
table that the retry filter admits, and the new table is the one-row
claiming UPDATE. -/
theorem claimNextJob_some {t : Rat} {rows : List QRow} {j : QueueJob}
    (h : (claimNextJob t rows).1 = some j) :
    (claimNextJob t rows).2 = rows.map (claimRow t j.id) ∧
    ∃ r ∈ rows, r.id = j.id ∧ r.status = QStatus.pending := by
  cases hs : selectTop (rows.filter (isAvailable t)) with
  | none => rw [claimNextJob_eq_none hs] at h; simp at h
  | some record =>
    rw [claimNextJob_eq_some hs] at h ⊢
    simp only [Option.some.injEq] at h
    have hmem := selectTop_mem hs
    have hav : isAvailable t record = true := List.of_mem_filter hmem
    have hrows : record ∈ rows := List.mem_of_mem_filter hmem
    have hid : record.id = j.id := by rw [← h]
    have hpend : record.status = QStatus.pending := by
      unfold isAvailable at hav
      simp only [Bool.and_eq_true, decide_eq_true_eq] at hav
      exact hav.1
    exact ⟨by rw [hid], record, hrows, hid, hpend⟩

/-- A failed claim leaves the table unchanged. -/
theorem claimNextJob_none {t : Rat} {rows : List QRow}
    (h : (claimNextJob t rows).1 = none) :
    (claimNextJob t rows).2 = rows := by
  cases hs : selectTop (rows.filter (isAvailable t)) with
  | none => rw [claimNextJob_eq_none hs]
  | some record => rw [claimNextJob_eq_some hs] at h; simp at h

/-- After the claiming UPDATE, every row carrying the claimed id is
`claimed`, hence not `pending`. -/
theorem claimRow_not_pending {t : Rat} {x : Nat} {rows : List QRow} :
    ∀ r2 ∈ rows.map (claimRow t x), r2.id = x → r2.status ≠ QStatus.pending := by
  intro r2 hmem hid
  obtain ⟨r0, _, rfl⟩ := List.mem_map.mp hmem
  unfold claimRow at hid ⊢
  by_cases h0 : r0.id = x
  · simp [h0]
  · simp [h0] at hid

/-- The claiming UPDATE never turns a row `pending`: rows with a given id
that were not `pending` stay not `pending`. -/
theorem claimRow_preserves_not_pending {t : Rat} {y x : Nat} {rows : List QRow}
    (h : ∀ r ∈ rows, r.id = x → r.status ≠ QStatus.pending) :
    ∀ r2 ∈ rows.map (claimRow t y), r2.id = x → r2.status ≠ QStatus.pending := by
  intro r2 hmem hid
  obtain ⟨r0, hr0, rfl⟩ := List.mem_map.mp hmem
  unfold claimRow at hid ⊢
  by_cases h0 : r0.id = y
  · simp [h0]
  · simp only [h0, if_false] at hid ⊢
    exact h r0 hr0 hid

/-- No later claim in a claim-only run ever returns an id whose rows are
all non-`pending`. -/
theorem claimMany_avoid {x : Nat} :
    ∀ (ts : List Rat) (rows : List QRow),
      (∀ r ∈ rows, r.id = x → r.status ≠ QStatus.pending) →
      ∀ j ∈ (claimMany ts rows).1, j.id ≠ x := by
  intro ts
  induction ts with
  | nil => intro rows _ j hj; simp [claimMany] at hj
  | cons t ts ih =>
    intro rows hP j hj
    rcases hcn : claimNextJob t rows with ⟨o, rows2⟩
    have ho1 : (claimNextJob t rows).1 = o := by rw [hcn]
    have ho2 : (claimNextJob t rows).2 = rows2 := by rw [hcn]
    rw [claimMany, hcn] at hj
    cases o with
    | none =>
      have hrows : rows2 = rows := by rw [← ho2, claimNextJob_none ho1]
      dsimp only at hj
      rw [hrows] at hj
      exact ih rows hP j hj
    | some j1 =>
      have hchar := claimNextJob_some ho1
      have hrows2 : rows2 = rows.map (claimRow t j1.id) := by
        rw [← ho2, hchar.1]
      dsimp only at hj
      simp only [List.mem_cons] at hj
      rcases hj with rfl | hj
      · obtain ⟨r, hr, hid, hpend⟩ := hchar.2
        intro hx
        exact hP r hr (hx ▸ hid) hpend
      · rw [hrows2] at hj
        exact ih _ (claimRow_preserves_not_pending hP) j hj

end ContextCrawler

namespace ContextCrawler

/-- C1 (amended): in any serialized run consisting only of `claimNextJob`
transactions — the serializable-transaction model of any number of
concurrent workers polling — the returned queue rows are pairwise distinct:
no two such invocations return the same row.  (Operations that move a row
back to `pending`, i.e. `markFailed` with retries left or `resetStuckJobs`,
do allow a later claim to return the same row again; see the
counterexample.) -/
theorem c1_claims_pairwise_distinct :
    ∀ (ts : List Rat) (rows : List QRow),
      (((claimMany ts rows).1.map QueueJob.id).Nodup) := by
  intro ts
  induction ts with
  | nil => intro rows; simp [claimMany]
  | cons t ts ih =>
    intro rows
    rcases hcn : claimNextJob t rows with ⟨o, rows2⟩
    have ho1 : (claimNextJob t rows).1 = o := by rw [hcn]
    have ho2 : (claimNextJob t rows).2 = rows2 := by rw [hcn]
    rw [claimMany, hcn]
    cases o with
    | none => exact ih rows2
    | some j1 =>
      dsimp only
      rw [List.map_cons, List.nodup_cons]
      refine ⟨?_, ih rows2⟩
      intro hmem
      obtain ⟨j2, hj2, hid⟩ := List.mem_map.mp hmem
      have hchar := claimNextJob_some ho1
      have hrows2 : rows2 = rows.map (claimRow t j1.id) := by
        rw [← ho2, hchar.1]
      have havoid := claimMany_avoid ts rows2
        (by rw [hrows2]; exact fun r2 hm hi => claimRow_not_pending r2 hm hi)
      exact havoid j2 hj2 hid

/-- C1 counterexample to the claim as stated: the same queue row (row id 1)
is returned by two different `claimNextJob` invocations once a failed
attempt with retries remaining has put it back to `pending`
(`markFailed` with `shouldRetry = true`). -/
theorem c1_same_row_reclaimed_counterexample :
    ((claimNextJob 10 [baseRow]).1.map QueueJob.id = some 1) ∧
    ((claimNextJob 2000 (markFailed 11 1 "boom" true 1000
        (claimNextJob 10 [baseRow]).2)).1.map QueueJob.id = some 1) := by
  constructor
  · norm_num [claimNextJob, selectTop, isAvailable, baseRow, sampleData,
      sampleConfig, List.filter]
  · norm_num [claimNextJob, selectTop, isAvailable, baseRow, sampleData,
      sampleConfig, List.filter, claimRow, markFailed, markFailedDelay,
      pow2Js, rpow2, List.find?]

end ContextCrawler

namespace ContextCrawler

/-- Pointwise form of a conditional row-preservation under a mapped UPDATE. -/
theorem forall2_map_of_preserved {P : QRow → Prop} {f : QRow → QRow} :
    ∀ (rows : List QRow), (∀ r ∈ rows, P r → f r = r) →
      List.Forall₂ (fun r r2 => P r → r2 = r) rows (rows.map f) := by
  intro rows
  induction rows with
  | nil => intro _; simp
  | cons a as ih =>
    intro h
    rw [List.map_cons]
    exact List.Forall₂.cons (fun hp => h a (List.mem_cons_self a as) hp)
      (ih fun r hr hp => h r (List.mem_cons_of_mem a hr) hp)

/-- C5 (amended): under the primary-key guarantee of unique row ids,
`claimNextJob` and `resetStuckJobs` never change a row whose status is
terminal (`completed` or `failed`) — their WHERE clauses only admit
`pending` resp. `claimed` rows.  (The id-only WHERE clauses of
`markCompleted` and `markFailed` do not share this property; see the
counterexample.) -/
theorem c5_terminal_rows_unchanged (t now timeoutMs : Rat) (rows : List QRow)
    (hids : (rows.map QRow.id).Nodup) :
    List.Forall₂ (fun r r2 =>
        (r.status = QStatus.completed ∨ r.status = QStatus.failed) → r2 = r)
      rows (claimNextJob t rows).2 ∧
    List.Forall₂ (fun r r2 =>
        (r.status = QStatus.completed ∨ r.status = QStatus.failed) → r2 = r)
      rows (resetStuckJobs now timeoutMs rows).2 := by
  constructor
  · cases hs : selectTop (rows.filter (isAvailable t)) with
    | none =>
      rw [claimNextJob_eq_none hs]
      exact (List.forall₂_same).mpr fun r _ _ => rfl
    | some record =>
      rw [claimNextJob_eq_some hs]
      refine forall2_map_of_preserved rows ?_
      intro r hr hterm
      have hmem := selectTop_mem hs
      have hav : isAvailable t record = true := List.of_mem_filter hmem
      have hrec : record ∈ rows := List.mem_of_mem_filter hmem
      have hpend : record.status = QStatus.pending := by
        unfold isAvailable at hav
        simp only [Bool.and_eq_true, decide_eq_true_eq] at hav
        exact hav.1
      unfold claimRow
      by_cases hid : r.id = record.id
      · have : r = record :=
          List.inj_on_of_nodup_map hids hr hrec hid
        subst this
        rcases hterm with h | h <;> rw [h] at hpend <;> exact absurd hpend (by simp)
      · simp [hid]
  · refine ((resetStuckRows_forall2 (now - timeoutMs) rows).imp ?_)
    intro r r2 h hterm
    refine h.2 ?_
    unfold stuckAt
    rcases hterm with ht | ht <;> simp [ht]

/-- C5 counterexample: `markFailed` with `shouldRetry = true` and retries
remaining moves an already-`completed` queue row back to `pending` — its
WHERE clause matches on id only, so a terminal row is not absorbing under
the listed queue operations. -/
theorem c5_terminal_row_changed_counterexample :
    (markFailed 50 1 "late failure" true 1000
        [{ baseRow with
            status := QStatus.completed, attempts := 1,
            completedAt := some 20 }]).map QRow.status
      = [QStatus.pending] := by
  norm_num [markFailed, markFailedDelay, pow2Js, rpow2, baseRow, sampleData,
    sampleConfig, List.find?]

end ContextCrawler

namespace ContextCrawler

/-- Witness for C5 at a concrete queue: a completed row and a pending row. -/
theorem c5_witness :
    List.Forall₂ (fun r r2 =>
        (r.status = QStatus.completed ∨ r.status = QStatus.failed) → r2 = r)
      [{ baseRow with status := QStatus.completed },
       { baseRow with id := 2 }]
      (claimNextJob 5
        [{ baseRow with status := QStatus.completed },
         { baseRow with id := 2 }]).2 ∧
    List.Forall₂ (fun r r2 =>
        (r.status = QStatus.completed ∨ r.status = QStatus.failed) → r2 = r)
      [{ baseRow with status := QStatus.completed },
       { baseRow with id := 2 }]
      (resetStuckJobs 100 30
        [{ baseRow with status := QStatus.completed },
         { baseRow with id := 2 }]).2 :=
  c5_terminal_rows_unchanged 5 100 30
    [{ baseRow with status := QStatus.completed },
     { baseRow with id := 2 }] (by decide)

/-- Identity of the worker's and the spec's backoff formula at the worker
call site: the worker does compute exactly
`BACKOFF_DELAY_MS * 2^(attempts-1) * (0.5 + rand*0.5)`. -/
theorem workerBackoff_eq_specFormula (base : Rat) (attempts : Nat) (rand : Rat) :
    workerBackoff base attempts rand = specRetryDelay base attempts rand := rfl

/-- The function `rpow2` is multiplicative over addition of exponents. -/
theorem rpow2_add (m n : Nat) : rpow2 (m + n) = rpow2 m * rpow2 n := by
  induction m with
  | zero => simp [rpow2]
  | succ k ih =>
    rw [Nat.succ_add, rpow2, ih, rpow2]
    ring

/-- Evaluation of `pow2Js` at a nonnegative exponent written as a cast difference. -/
theorem pow2Js_cast_sub_one (a : Nat) (h : 1 ≤ a) :
    pow2Js ((a : Int) - 1) = rpow2 (a - 1) := by
  obtain ⟨n, rfl⟩ : ∃ n, a = n + 1 := ⟨a - 1, by omega⟩
  unfold pow2Js
  rw [if_pos (by omega)]
  congr 1
  omega

/-- C2 (amended): a failed attempt with retries remaining schedules
`nextRetryAt = now + BACKOFF_DELAY_MS * 4^(attempts-1) * jitter` with the
jitter factor in `[1/2, 1)` — the worker multiplies the base by
`2^(attempts-1) * jitter` and `markFailed` multiplies the received value by
`2^(attempts-1)` again, so the exponential base is effectively 4
(`rpow2 (2*(attempts-1)) = 4^(attempts-1)`). -/
theorem c2_retry_delay_doubled_exponent (now base rand : Rat) (qid : Nat)
    (e : String) (rows : List QRow) (row : QRow)
    (hfind : rows.find? (fun r => decide (r.id = qid)) = some row)
    (h1 : 1 ≤ row.attempts) (h2 : row.attempts < row.maxAttempts)
    (hr0 : 0 ≤ rand) (hr1 : rand < 1) :
    markFailed now qid e true (workerBackoff base row.attempts rand) rows
      = rows.map (fun r =>
          if r.id = qid then
            { r with status := QStatus.pending,
                     nextRetryAt := some (now +
                       base * rpow2 (2 * (row.attempts - 1)) * jitterFactor rand),
                     error := some e }
          else r) ∧
    rpow2 (2 * (row.attempts - 1)) = 4 ^ (row.attempts - 1) ∧
    1 / 2 ≤ jitterFactor rand ∧ jitterFactor rand < 1 := by
  refine ⟨?_, ?_, ?_, ?_⟩
  · unfold markFailed
    rw [hfind]
    dsimp only
    rw [if_pos (by simp [h2])]
    have hdelay : markFailedDelay (workerBackoff base row.attempts rand)
        row.attempts = base * rpow2 (2 * (row.attempts - 1)) * jitterFactor rand := by
      unfold markFailedDelay workerBackoff
      rw [pow2Js_cast_sub_one _ h1]
      rw [(by omega : 2 * (row.attempts - 1) = (row.attempts - 1) + (row.attempts - 1)),
        rpow2_add]
      ring
    rw [hdelay]
  · generalize row.attempts - 1 = n
    induction n with
    | zero => simp [rpow2]
    | succ k ih =>
      rw [(by omega : 2 * (k + 1) = (2 * k) + 1 + 1), rpow2, rpow2, ih]
      ring
  · unfold jitterFactor
    linarith
  · unfold jitterFactor
    linarith

/-- Witness for C2's amended statement: one claimed row on its second
attempt, zero jitter draw. -/
theorem c2_witness :
    markFailed 0 1 "err" true
        (workerBackoff 5000
          ({ baseRow with status := QStatus.claimed, attempts := 2 } : QRow).attempts 0)
        [{ baseRow with status := QStatus.claimed, attempts := 2 }]
      = [{ baseRow with status := QStatus.claimed, attempts := 2 }].map (fun r =>
          if r.id = 1 then
            { r with status := QStatus.pending,
                     nextRetryAt := some (0 +
                       5000 * rpow2 (2 *
                         (({ baseRow with status := QStatus.claimed, attempts := 2 } : QRow).attempts - 1)) *
                         jitterFactor 0),
                     error := some "err" }
          else r) ∧
    rpow2 (2 * (({ baseRow with status := QStatus.claimed, attempts := 2 } : QRow).attempts - 1))
      = 4 ^ (({ baseRow with status := QStatus.claimed, attempts := 2 } : QRow).attempts - 1) ∧
    1 / 2 ≤ jitterFactor 0 ∧ jitterFactor 0 < 1 :=
  c2_retry_delay_doubled_exponent 0 5000 0 1 "err"
    [{ baseRow with status := QStatus.claimed, attempts := 2 }]
    { baseRow with status := QStatus.claimed, attempts := 2 }
    (by rfl) (by decide) (by decide) (by decide) (by decide)

/-- C2 counterexample: at the second attempt with base 5000 ms and jitter
draw 0, the delay actually applied to `nextRetryAt` is 10000 ms, not the
5000 ms the claimed formula yields. -/
theorem c2_delay_formula_counterexample :
    actualRetryDelay 5000 2 0 = 10000 ∧ specRetryDelay 5000 2 0 = 5000 ∧
    actualRetryDelay 5000 2 0 ≠ specRetryDelay 5000 2 0 := by
  refine ⟨?_, ?_, ?_⟩ <;>
    norm_num [actualRetryDelay, specRetryDelay, workerBackoff, markFailedDelay,
      jitterFactor, pow2Js, rpow2]

end ContextCrawler

namespace ContextCrawler

/-- C3 (amended): under a finite token cap and no byte cap, a record whose
token count alone exceeds the cap is silently dropped — `isWithinTokenLimit`
returns `false` for it, so it is never added to any batch (its byte size
still advances `currentSize`).  The write-pending-batch-then-fresh-batch
policy with `estimatedTokens = floor(tokenCount/2)` applies instead to a
record that individually fits the cap but would push the accumulated
`estimatedTokens` over it. -/
theorem c3_oversized_record_dropped (limit : Nat) (d : RecordM) (s : WriteState) :
    (limit < d.tokens →
      addContentOrSplit (some limit) none d s
        = { s with currentSize := s.currentSize + d.bytes }) ∧
    (d.tokens ≤ limit → limit < s.estimatedTokens + d.tokens →
      s.currentResults ≠ [] →
      addContentOrSplit (some limit) none d s
        = { currentResults := [d], currentSize := d.bytes,
            fileCounter := s.fileCounter + 1, estimatedTokens := d.tokens / 2,
            written := s.written ++ [s.currentResults] }) ∧
    (d.tokens ≤ limit → limit < s.estimatedTokens + d.tokens →
      s.currentResults = [] →
      addContentOrSplit (some limit) none d s
        = { s with currentResults := [d], currentSize := s.currentSize + d.bytes,
                   estimatedTokens := d.tokens / 2 }) := by
  refine ⟨?_, ?_, ?_⟩
  · intro hover
    have hlt : ¬ d.tokens ≤ limit := by omega
    simp [addContentOrSplit, isWithinTokenLimit, hlt]
  · intro hfit hpush hne
    have hie : s.currentResults.isEmpty = false := by
      simpa [List.isEmpty_iff] using hne
    simp [addContentOrSplit, isWithinTokenLimit, writeBatchToFile, hfit,
      hpush, hie]
  · intro hfit hpush hemp
    simp [addContentOrSplit, isWithinTokenLimit, writeBatchToFile, hfit,
      hpush, hemp]

/-- Witness for C3's amended statement at `limit = 10`, a 12-token record,
and a state with one 6-token record pending. -/
theorem c3_witness :
    ((10 < (⟨2, 12, 40⟩ : RecordM).tokens →
      addContentOrSplit (some 10) none ⟨2, 12, 40⟩
          { currentResults := [⟨1, 6, 20⟩], currentSize := 20, fileCounter := 1,
            estimatedTokens := 6, written := [] }
        = { currentResults := [⟨1, 6, 20⟩], currentSize := 20 + 40,
            fileCounter := 1, estimatedTokens := 6, written := [] }) ∧
    ((⟨2, 12, 40⟩ : RecordM).tokens ≤ 10 →
      10 < (6 : Nat) + (⟨2, 12, 40⟩ : RecordM).tokens →
      ([⟨1, 6, 20⟩] : List RecordM) ≠ [] →
      addContentOrSplit (some 10) none ⟨2, 12, 40⟩
          { currentResults := [⟨1, 6, 20⟩], currentSize := 20, fileCounter := 1,
            estimatedTokens := 6, written := [] }
        = { currentResults := [⟨2, 12, 40⟩], currentSize := (⟨2, 12, 40⟩ : RecordM).bytes,
            fileCounter := 1 + 1, estimatedTokens := (⟨2, 12, 40⟩ : RecordM).tokens / 2,
            written := [] ++ [[⟨1, 6, 20⟩]] }) ∧
    ((⟨2, 12, 40⟩ : RecordM).tokens ≤ 10 →
      10 < (6 : Nat) + (⟨2, 12, 40⟩ : RecordM).tokens →
      ([⟨1, 6, 20⟩] : List RecordM) = [] →
      addContentOrSplit (some 10) none ⟨2, 12, 40⟩
          { currentResults := [⟨1, 6, 20⟩], currentSize := 20, fileCounter := 1,
            estimatedTokens := 6, written := [] }
        = { currentResults := [⟨2, 12, 40⟩], currentSize := 20 + 40,
            fileCounter := 1, estimatedTokens := (⟨2, 12, 40⟩ : RecordM).tokens / 2,
            written := [] })) :=
  c3_oversized_record_dropped 10 ⟨2, 12, 40⟩
    { currentResults := [⟨1, 6, 20⟩], currentSize := 20, fileCounter := 1,
      estimatedTokens := 6, written := [] }

/-- C3 counterexample: with `maxTokens = 10`, a single record of 11 tokens
produces NO output segment at all — it is dropped rather than placed into a
fresh batch, so it appears in no segment. -/
theorem c3_record_lost_counterexample :
    writeSegments (some 10) none [{ tag := 0, tokens := 11, bytes := 5 }] = [] := by
  rfl

end ContextCrawler

namespace ContextCrawler

/-- C4 (amended): the `catch` sits outside the whole aggregation loop, so
the FIRST transient file that is unreadable or unparseable aborts
aggregation — items of files before it have already been streamed, files
after it are never read, and the loop does not complete; aggregation is
skipped without error only when zero tasks succeeded. -/
theorem c4_first_bad_file_aborts {α : Type}
    (pre post : List (Except String (ParsedJson α))) (msg : String)
    (hok : ∀ x ∈ pre, ∃ d, x = Except.ok d) :
    streamAggregate (pre ++ Except.error msg :: post)
      = ((pre.map okItems).flatten, false) ∧
    aggregateJob (pre ++ Except.error msg :: post)
      = some ((pre.map okItems).flatten, false) ∧
    aggregateJob ([] : List (Except String (ParsedJson α))) = none := by
  have hmain : streamAggregate (pre ++ Except.error msg :: post)
      = ((pre.map okItems).flatten, false) := by
    induction pre with
    | nil => simp [streamAggregate]
    | cons x rest ih =>
      obtain ⟨d, rfl⟩ := hok x (List.mem_cons_self x rest)
      have ihr := ih fun y hy => hok y (List.mem_cons_of_mem _ hy)
      simp only [List.cons_append, streamAggregate]
      simp [ihr, okItems]
  refine ⟨hmain, ?_, by simp [aggregateJob]⟩
  have hne : (pre ++ Except.error msg :: post).isEmpty = false := by
    cases pre <;> simp
  simp [aggregateJob, hne, hmain]

/-- C7: when every successful task's transient file parses as a JSON array,
the streamed aggregation completes and emits exactly the concatenation of
those arrays, in file (submission) order, with within-file order preserved;
its length is the sum of the per-file lengths. -/
theorem c7_aggregation_preserves_arrays {α : Type} (ls : List (List α)) :
    streamAggregate (ls.map fun l => Except.ok (ParsedJson.arr l))
      = (ls.flatten, true) ∧
    (ls.flatten).length = (ls.map List.length).sum := by
  constructor
  · induction ls with
    | nil => simp [streamAggregate]
    | cons l rest ih =>
      simp only [List.map_cons, streamAggregate]
      simp [ih, itemsOf]
  · exact List.length_flatten ls

/-- C4 counterexample to the claim as stated: with three successful tasks
whose transient files are `[1,2]`, an unreadable file, and `[3]`, the
aggregation does not continue past the unreadable file — record 3 never
appears, and the loop does not complete. -/
theorem c4_no_skip_counterexample :
    streamAggregate [Except.ok (ParsedJson.arr [1, 2]),
        Except.error "EACCES: permission denied",
        Except.ok (ParsedJson.arr [3])]
      = ([1, 2], false) ∧
    3 ∉ (streamAggregate [Except.ok (ParsedJson.arr [1, 2]),
        Except.error "EACCES: permission denied",
        Except.ok (ParsedJson.arr [3])]).1 := by
  constructor
  · rfl
  · decide

/-- Witness for C4's amended statement: one good file before the bad one,
one after. -/
theorem c4_witness :
    streamAggregate [Except.ok (ParsedJson.arr [7]),
        Except.error "bad", Except.ok (ParsedJson.arr [9])]
      = (([Except.ok (ParsedJson.arr ([7] : List Nat))].map okItems).flatten, false) ∧
    aggregateJob [Except.ok (ParsedJson.arr [7]),
        Except.error "bad", Except.ok (ParsedJson.arr [9])]
      = some (([Except.ok (ParsedJson.arr ([7] : List Nat))].map okItems).flatten, false) ∧
    aggregateJob ([] : List (Except String (ParsedJson Nat))) = none :=
  c4_first_bad_file_aborts [Except.ok (ParsedJson.arr [7])]
    [Except.ok (ParsedJson.arr [9])] "bad"
    (fun x hx => ⟨ParsedJson.arr [7], by
      rw [List.mem_singleton] at hx
      exact hx⟩)

end ContextCrawler

namespace ContextCrawler

/-- The function `splitSlash` never returns the empty list. -/
theorem splitSlash_ne_nil : ∀ l : List Char, splitSlash l ≠ [] := by
  intro l
  induction l with
  | nil => simp [splitSlash]
  | cons c rest ih =>
    unfold splitSlash
    by_cases hc : c = '/'
    · simp [hc]
    · simp only [hc, if_false]
      cases hs : splitSlash rest with
      | nil => simp
      | cons s ss => simp

/-- Splitting after a leading slash. -/
theorem splitSlash_cons_slash (rest : List Char) :
    splitSlash ('/' :: rest) = [] :: splitSlash rest := by
  conv_lhs => rw [splitSlash]
  rw [if_pos rfl]

/-- Splitting after a leading non-slash character. -/
theorem splitSlash_cons_other {c : Char} (hc : ¬ c = '/') {rest : List Char}
    {s : List Char} {ss : List (List Char)} (hs : splitSlash rest = s :: ss) :
    splitSlash (c :: rest) = (c :: s) :: ss := by
  conv_lhs => rw [splitSlash]
  rw [hs]
  simp [hc]

/-- Splitting distributes over a separator between two halves. -/
theorem splitSlash_append (a b : List Char) :
    splitSlash (a ++ '/' :: b) = splitSlash a ++ splitSlash b := by
  induction a with
  | nil => simp [splitSlash_cons_slash, splitSlash]
  | cons c rest ih =>
    by_cases hc : c = '/'
    · subst hc
      rw [List.cons_append, splitSlash_cons_slash, ih, splitSlash_cons_slash,
        List.cons_append]
    · cases hs : splitSlash rest with
      | nil => exact absurd hs (splitSlash_ne_nil rest)
      | cons s ss =>
        have hrb : splitSlash (rest ++ '/' :: b) = s :: (ss ++ splitSlash b) := by
          rw [ih, hs]
          rfl
        rw [List.cons_append, splitSlash_cons_other hc hrb,
          splitSlash_cons_other hc hs]
        rfl

/-- A slash-free string is one single component. -/
theorem splitSlash_no_slash {l : List Char} (h : '/' ∉ l) :
    splitSlash l = [l] := by
  induction l with
  | nil => rfl
  | cons c rest ih =>
    have hc : ¬ c = '/' := fun he => h (he ▸ List.mem_cons_self c rest)
    have hr : '/' ∉ rest := fun hm => h (List.mem_cons_of_mem c hm)
    exact splitSlash_cons_other hc (ih hr)

/-- Every character of every component comes from the split string. -/
theorem splitSlash_chars : ∀ (l : List Char) (seg : List Char),
    seg ∈ splitSlash l → ∀ c ∈ seg, c ∈ l := by
  intro l
  induction l with
  | nil =>
    intro seg hseg c hc
    simp [splitSlash] at hseg
    subst hseg
    simp at hc
  | cons a rest ih =>
    intro seg hseg c hc
    by_cases ha : a = '/'
    · subst ha
      rw [splitSlash_cons_slash] at hseg
      rcases List.mem_cons.mp hseg with rfl | hseg2
      · simp at hc
      · exact List.mem_cons_of_mem _ (ih seg hseg2 c hc)
    · cases hs : splitSlash rest with
      | nil => exact absurd hs (splitSlash_ne_nil rest)
      | cons s ss =>
        rw [splitSlash_cons_other ha hs] at hseg
        rcases List.mem_cons.mp hseg with rfl | hseg2
        · rcases List.mem_cons.mp hc with rfl | hc2
          · exact List.mem_cons_self c rest
          · exact List.mem_cons_of_mem a
              (ih s (hs ▸ List.mem_cons_self s ss) c hc2)
        · exact List.mem_cons_of_mem a
            (ih seg (hs ▸ List.mem_cons_of_mem s hseg2) c hc)

/-- The head surviving `dropWhile` fails the predicate. -/
theorem dropWhile_head_false {p : Char → Bool} :
    ∀ {l : List Char} {a : Char} {as : List Char},
      l.dropWhile p = a :: as → p a = false := by
  intro l
  induction l with
  | nil => intro a as h; simp [List.dropWhile] at h
  | cons c rest ih =>
    intro a as h
    rw [List.dropWhile_cons] at h
    by_cases hc : p c = true
    · rw [if_pos hc] at h
      exact ih h
    · simp only [Bool.not_eq_true] at hc
      rw [if_neg (by simp [hc])] at h
      cases h
      exact hc

end ContextCrawler

namespace ContextCrawler

/-- A non-degenerate basename is a nonempty slash-free component. -/
theorem posixBasename_props {f : List Char} (hne : f ≠ [])
    (hslash : posixBasename f ≠ ['/']) :
    posixBasename f ≠ [] ∧ '/' ∉ posixBasename f := by
  unfold posixBasename at hslash ⊢
  rw [if_neg (by simpa [List.isEmpty_iff] using hne)] at hslash ⊢
  by_cases hte : (dropTrailingSlashes f).isEmpty = true
  · rw [if_pos hte] at hslash
    exact absurd rfl hslash
  · rw [if_neg hte] at hslash ⊢
    have htne : dropTrailingSlashes f ≠ [] := by
      simpa [List.isEmpty_iff] using hte
    obtain ⟨c, cs, hrev⟩ : ∃ c cs, (dropTrailingSlashes f).reverse = c :: cs := by
      cases hr : (dropTrailingSlashes f).reverse with
      | nil =>
        have := congrArg List.reverse hr
        rw [List.reverse_reverse] at this
        exact absurd this htne
      | cons c cs => exact ⟨c, cs, rfl⟩
    have hc : ¬ c = '/' := by
      have hd : (dropTrailingSlashes f).reverse
          = f.reverse.dropWhile (fun c => decide (c = '/')) := by
        unfold dropTrailingSlashes
        rw [List.reverse_reverse]
      rw [hd] at hrev
      simpa using dropWhile_head_false hrev
    rw [hrev, List.takeWhile_cons, if_pos (by simpa using hc)]
    refine ⟨by simp, ?_⟩
    intro hmem
    rw [List.mem_reverse] at hmem
    rcases List.mem_cons.mp hmem with rfl | hm2
    · exact hc rfl
    · have := List.mem_takeWhile_imp hm2
      simp at this

/-- A list is a prefix of itself extended on the right. -/
theorem isPrefixOf_self_append : ∀ (l x : List Char), l.isPrefixOf (l ++ x) = true := by
  intro l x
  induction l with
  | nil => simp [List.isPrefixOf]
  | cons a as ih => simp [List.isPrefixOf, ih]

/-- C6 (amended): for every non-empty user-supplied `outputFileName` whose
basename is an ordinary component (not `/`, `.` or `..`), the sanitized
path is literally `output/jobs/<basename>` and lies strictly under
`output/jobs/`.  (A name whose basename is `..` — e.g. `".."` itself —
escapes: `join` collapses it to `output`; see the counterexample.) -/
theorem c6_sanitized_path_under_output_jobs (f : List Char) (hne : f ≠ [])
    (hslash : posixBasename f ≠ ['/']) (hdot : posixBasename f ≠ ['.'])
    (hdots : posixBasename f ≠ ['.', '.']) :
    sanitizeOutputFileName f = "output/jobs/".toList ++ posixBasename f ∧
    liesStrictlyUnderOutputJobs (sanitizeOutputFileName f) = true := by
  obtain ⟨hbne, hbs⟩ := posixBasename_props hne hslash
  have hsplit_b : splitSlash (posixBasename f) = [posixBasename f] :=
    splitSlash_no_slash hbs
  have hsplit_oj : splitSlash "output/jobs".toList
      = ["output".toList, "jobs".toList] := by decide
  have key : sanitizeOutputFileName f
      = "output/jobs/".toList ++ posixBasename f := by
    unfold sanitizeOutputFileName pathJoin
    rw [hsplit_oj, hsplit_b]
    dsimp only
    have hfold : List.foldl normStep []
        (["output".toList, "jobs".toList] ++ [posixBasename f])
        = [posixBasename f, "jobs".toList, "output".toList] := by
      simp only [List.cons_append, List.nil_append, List.foldl_cons,
        List.foldl_nil]
      have h1 : normStep [] "output".toList = ["output".toList] := by decide
      have h2 : normStep ["output".toList] "jobs".toList
          = ["jobs".toList, "output".toList] := by decide
      rw [h1, h2]
      unfold normStep
      rw [if_neg (by simp [hbne, hdot]), if_neg (by simp [hdots])]
    rw [hfold]
    simp only [List.reverse_cons, List.reverse_nil, List.nil_append,
      List.cons_append, List.isEmpty_cons, Bool.false_eq_true, if_false,
      renderPath]
    rfl
  refine ⟨key, ?_⟩
  rw [key]
  unfold liesStrictlyUnderOutputJobs
  rw [isPrefixOf_self_append]
  simp only [Bool.true_and, decide_eq_true_eq, List.length_append]
  have := List.length_pos.mpr hbne
  omega

end ContextCrawler

namespace ContextCrawler

/-- C6 counterexample: a user-supplied `outputFileName` of `".."` has
basename `".."`, and `join("output/jobs", "..")` normalizes to `"output"` —
outside `output/jobs/`. -/
theorem c6_dotdot_escapes_counterexample :
    sanitizeOutputFileName "..".toList = "output".toList ∧
    liesStrictlyUnderOutputJobs (sanitizeOutputFileName "..".toList) = false := by
  decide

/-- Witness for C6 at the spec's own example
`"../../etc/passwd.json" ↦ "output/jobs/passwd.json"`. -/
theorem c6_witness :
    sanitizeOutputFileName "../../etc/passwd.json".toList
      = "output/jobs/".toList ++ posixBasename "../../etc/passwd.json".toList ∧
    liesStrictlyUnderOutputJobs
      (sanitizeOutputFileName "../../etc/passwd.json".toList) = true :=
  c6_sanitized_path_under_output_jobs "../../etc/passwd.json".toList
    (by decide) (by decide) (by decide) (by decide)

end ContextCrawler

namespace ContextCrawler

/-- Membership after a set-style insertion. -/
theorem mem_insertUnique {l : List (List Char)} {x y : List Char} :
    x ∈ insertUnique l y ↔ x ∈ l ∨ x = y := by
  unfold insertUnique
  by_cases h : y ∈ l
  · rw [if_pos h]
    constructor
    · exact Or.inl
    · rintro (hx | rfl)
      · exact hx
      · exact h
  · rw [if_neg h]
    simp

/-- Membership in the folded expansion, relative to an accumulator. -/
theorem expand_foldl_mem (patterns : List (List Char)) :
    ∀ (acc : List (List Char)) (x : List Char),
      x ∈ patterns.foldl
        (fun acc p =>
          let acc1 := insertUnique acc p
          if !hasStar p && !endsWithSlash p then
            insertUnique acc1 (p ++ "/**".toList)
          else acc1)
        acc
      ↔ x ∈ acc ∨ (∃ p ∈ patterns, x = p) ∨
        (∃ p ∈ patterns, hasStar p = false ∧ endsWithSlash p = false ∧
          x = p ++ "/**".toList) := by
  induction patterns with
  | nil => intro acc x; simp
  | cons q qs ih =>
    intro acc x
    rw [List.foldl_cons]
    dsimp only
    by_cases hq : (!hasStar q && !endsWithSlash q) = true
    · rw [if_pos hq]
      simp only [Bool.and_eq_true, Bool.not_eq_true'] at hq
      rw [ih, mem_insertUnique, mem_insertUnique]
      constructor
      · rintro (((hx | rfl) | rfl) | hrest)
        · exact Or.inl hx
        · exact Or.inr (Or.inl ⟨x, List.mem_cons_self _ _, rfl⟩)
        · exact Or.inr (Or.inr ⟨q, List.mem_cons_self _ _, hq.1, hq.2, rfl⟩)
        · rcases hrest with ⟨p, hp, he⟩ | ⟨p, hp, h1, h2, he⟩
          · exact Or.inr (Or.inl ⟨p, List.mem_cons_of_mem _ hp, he⟩)
          · exact Or.inr (Or.inr ⟨p, List.mem_cons_of_mem _ hp, h1, h2, he⟩)
      · rintro (hx | ⟨p, hp, rfl⟩ | ⟨p, hp, h1, h2, rfl⟩)
        · exact Or.inl (Or.inl (Or.inl hx))
        · rcases List.mem_cons.mp hp with rfl | hp2
          · exact Or.inl (Or.inl (Or.inr rfl))
          · exact Or.inr (Or.inl ⟨x, hp2, rfl⟩)
        · rcases List.mem_cons.mp hp with rfl | hp2
          · exact Or.inl (Or.inr rfl)
          · exact Or.inr (Or.inr ⟨p, hp2, h1, h2, rfl⟩)
    · rw [if_neg hq]
      simp only [Bool.and_eq_true, Bool.not_eq_true', not_and_or,
        Bool.not_eq_false] at hq
      rw [ih, mem_insertUnique]
      constructor
      · rintro ((hx | rfl) | hrest)
        · exact Or.inl hx
        · exact Or.inr (Or.inl ⟨x, List.mem_cons_self _ _, rfl⟩)
        · rcases hrest with ⟨p, hp, he⟩ | ⟨p, hp, h1, h2, he⟩
          · exact Or.inr (Or.inl ⟨p, List.mem_cons_of_mem _ hp, he⟩)
          · exact Or.inr (Or.inr ⟨p, List.mem_cons_of_mem _ hp, h1, h2, he⟩)
      · rintro (hx | ⟨p, hp, rfl⟩ | ⟨p, hp, h1, h2, rfl⟩)
        · exact Or.inl (Or.inl hx)
        · rcases List.mem_cons.mp hp with rfl | hp2
          · exact Or.inl (Or.inr rfl)
          · exact Or.inr (Or.inl ⟨x, hp2, rfl⟩)
        · rcases List.mem_cons.mp hp with rfl | hp2
          · rcases hq with h | h
            · rw [h1] at h; cases h
            · rw [h2] at h; cases h
          · exact Or.inr (Or.inr ⟨p, hp2, h1, h2, rfl⟩)

/-- Membership characterization of `expandExcludePatterns`. -/
theorem mem_expandExcludePatterns {patterns : List (List Char)} {x : List Char} :
    x ∈ expandExcludePatterns patterns
      ↔ (∃ p ∈ patterns, x = p) ∨
        (∃ p ∈ patterns, hasStar p = false ∧ endsWithSlash p = false ∧
          x = p ++ "/**".toList) := by
  unfold expandExcludePatterns
  rw [expand_foldl_mem]
  simp

end ContextCrawler

namespace ContextCrawler

/-- A star-free segment matches itself. -/
theorem segMatch_self {s : List Char} (h : '*' ∉ s) : segMatch s s = true := by
  induction s with
  | nil => simp [segMatch]
  | cons c cs ih =>
    have hc : ¬ c = '*' := fun he => h (he ▸ List.mem_cons_self c cs)
    unfold segMatch
    rw [if_neg hc]
    simp only [decide_True, Bool.true_and]
    exact ih fun hm => h (List.mem_cons_of_mem c hm)

/-- A trailing `**` pattern segment matches any remaining path. -/
theorem globMatch_globstar_last : ∀ ts : List (List Char),
    globMatch [['*', '*']] ts = true := by
  intro ts
  induction ts with
  | nil => simp [globMatch]
  | cons t ts ih =>
    unfold globMatch
    rw [if_pos rfl]
    simp [ih]

/-- A star-free segment prefix followed by `**` matches the same prefix
followed by anything. -/
theorem globMatch_prefix_globstar :
    ∀ (ps ts : List (List Char)), (∀ seg ∈ ps, '*' ∉ seg) →
      globMatch (ps ++ [['*', '*']]) (ps ++ ts) = true := by
  intro ps
  induction ps with
  | nil => intro ts _; exact globMatch_globstar_last ts
  | cons seg ps ih =>
    intro ts hs
    have hseg : '*' ∉ seg := hs seg (List.mem_cons_self seg ps)
    have hne : ¬ seg = ['*', '*'] := by
      intro he
      exact hseg (he ▸ List.mem_cons_self '*' ['*'])
    rw [List.cons_append, List.cons_append]
    unfold globMatch
    rw [if_neg hne]
    simp only [segMatch_self hseg, Bool.true_and]
    exact ih ts fun s hm => hs s (List.mem_cons_of_mem seg hm)

/-- C9: `expandExcludePatterns` keeps every input pattern; for each pattern
with no `*` and no trailing `/` it additionally emits `pattern ++ "/**"`;
nothing else is emitted (patterns with a wildcard or trailing slash pass
through unchanged); and consequently any URL of the shape `P/anything` for
a plain-path exclude `P` is rejected by the exclude filter. -/
theorem c9_exclude_expansion (patterns : List (List Char)) :
    (∀ p ∈ patterns, p ∈ expandExcludePatterns patterns) ∧
    (∀ p ∈ patterns, hasStar p = false → endsWithSlash p = false →
      p ++ "/**".toList ∈ expandExcludePatterns patterns) ∧
    (∀ x ∈ expandExcludePatterns patterns,
      x ∈ patterns ∨ ∃ p ∈ patterns, hasStar p = false ∧
        endsWithSlash p = false ∧ x = p ++ "/**".toList) ∧
    (∀ (p rest : List Char), p ∈ patterns → hasStar p = false →
      endsWithSlash p = false →
      urlExcluded (p ++ '/' :: rest) patterns = true) := by
  refine ⟨?_, ?_, ?_, ?_⟩
  · intro p hp
    exact mem_expandExcludePatterns.mpr (Or.inl ⟨p, hp, rfl⟩)
  · intro p hp h1 h2
    exact mem_expandExcludePatterns.mpr (Or.inr ⟨p, hp, h1, h2, rfl⟩)
  · intro x hx
    rcases mem_expandExcludePatterns.mp hx with ⟨p, hp, rfl⟩ | ⟨p, hp, h1, h2, rfl⟩
    · exact Or.inl hp
    · exact Or.inr ⟨p, hp, h1, h2, rfl⟩
  · intro p rest hp h1 h2
    have hmem : p ++ "/**".toList ∈ expandExcludePatterns patterns :=
      mem_expandExcludePatterns.mpr (Or.inr ⟨p, hp, h1, h2, rfl⟩)
    have hnostar : '*' ∉ p := by
      unfold hasStar at h1
      simp at h1
      exact h1
    have hmatch : minimatchB (p ++ '/' :: rest) (p ++ "/**".toList) = true := by
      unfold minimatchB
      have hsp : splitSlash (p ++ "/**".toList)
          = splitSlash p ++ [['*', '*']] := by
        have : "/**".toList = '/' :: "**".toList := rfl
        rw [this, splitSlash_append]
        rfl
      rw [hsp, splitSlash_append]
      exact globMatch_prefix_globstar (splitSlash p) (splitSlash rest)
        fun seg hseg hstar => hnostar (splitSlash_chars p seg hseg '*' hstar)
    unfold urlExcluded
    rw [List.any_eq_true]
    exact ⟨p ++ "/**".toList, hmem, hmatch⟩

/-- Witness for C9 at the spec's own example: the plain exclude
`"/support"` rejects `"/support/foo"`. -/
theorem c9_witness :
    urlExcluded ("/support".toList ++ '/' :: "foo".toList)
      ["/support".toList] = true :=
  (c9_exclude_expansion ["/support".toList]).2.2.2 "/support".toList
    "foo".toList (List.mem_singleton.mpr rfl) (by decide) (by decide)

end ContextCrawler

namespace ContextCrawler

/-- The batch loop under fresh, pairwise-distinct job ids: it succeeds and
appends exactly one queue entry per config, in order, each carrying that
config stamped with the job's generated output file name. -/
theorem batchGo_spec (now : Rat) (jobName : String) :
    ∀ (pairs : List (String × Config)) (st : ServerState),
      (∀ pr ∈ pairs, ∀ r ∈ st.queue, r.jobId ≠ pr.1) →
      (pairs.map Prod.fst).Nodup →
      (batchGo now jobName pairs st).1 = true ∧
      ∃ tail : List QRow,
        (batchGo now jobName pairs st).2.queue = st.queue ++ tail ∧
        tail.map (fun r => r.data.config)
          = pairs.map (fun pr =>
              { pr.2 with outputFileName := some (generateOutputFileName jobName) }) ∧
        tail.map QRow.jobId = pairs.map Prod.fst := by
  intro pairs
  induction pairs with
  | nil =>
    intro st _ _
    exact ⟨rfl, [], by simp [batchGo], by simp, by simp⟩
  | cons pr rest ih =>
    intro st hfresh hnodup
    obtain ⟨jobId, config⟩ := pr
    have hadd : queueAdd now jobId
        { config := { config with
            outputFileName := some (generateOutputFileName jobName) },
          jobName := jobName } 0 3 st.queue
        = Except.ok (st.queue ++ [newQueueRow now jobId
            { config := { config with
                outputFileName := some (generateOutputFileName jobName) },
              jobName := jobName } 0 3 st.queue]) := by
      unfold queueAdd
      rw [if_neg ?hc]
      case hc =>
        rw [List.any_eq_true]
        rintro ⟨r, hr, hdec⟩
        rw [decide_eq_true_eq] at hdec
        exact hfresh (jobId, config) (List.mem_cons_self _ _) r hr hdec
    rw [batchGo]
    dsimp only
    rw [hadd]
    have hfresh2 : ∀ pr2 ∈ rest, ∀ r ∈ (st.queue ++ [newQueueRow now jobId
        { config := { config with
            outputFileName := some (generateOutputFileName jobName) },
          jobName := jobName } 0 3 st.queue]), r.jobId ≠ pr2.1 := by
      intro pr2 hpr2 r hr
      rcases List.mem_append.mp hr with hr2 | hr2
      · exact hfresh pr2 (List.mem_cons_of_mem _ hpr2) r hr2
      · rw [List.mem_singleton] at hr2
        subst hr2
        have hj : (newQueueRow now jobId
            { config := { config with
                outputFileName := some (generateOutputFileName jobName) },
              jobName := jobName } 0 3 st.queue).jobId = jobId := rfl
        rw [hj]
        rw [List.map_cons, List.nodup_cons] at hnodup
        intro he
        apply hnodup.1
        have hfst : Prod.fst (jobId, config) = pr2.1 := he
        rw [hfst]
        exact List.mem_map_of_mem Prod.fst hpr2
    have hnodup2 : (rest.map Prod.fst).Nodup := by
      rw [List.map_cons, List.nodup_cons] at hnodup
      exact hnodup.2
    obtain ⟨hok, tail2, hq, hcfg, hids⟩ :=
      ih ⟨createJob jobId
            { config with
              outputFileName := some (generateOutputFileName jobName) } st.store,
          st.queue ++ [newQueueRow now jobId
            { config := { config with
                outputFileName := some (generateOutputFileName jobName) },
              jobName := jobName } 0 3 st.queue]⟩ hfresh2 hnodup2
    refine ⟨hok, newQueueRow now jobId
      { config := { config with
          outputFileName := some (generateOutputFileName jobName) },
        jobName := jobName } 0 3 st.queue :: tail2, ?_, ?_, ?_⟩
    · rw [hq]
      simp
    · simp [hcfg, newQueueRow]
    · simp [hids, newQueueRow]

end ContextCrawler

namespace ContextCrawler

/-- C10: `POST /crawl` with a valid job name creates exactly one job record
and enqueues exactly one queue entry, both built from the job's FIRST
config only (stamped with the generated output file name); the remaining
configs are untouched.  `POST /crawl/batch`, by contrast, enqueues one
entry per config of the job, carrying every config in order. -/
theorem c10_named_crawl_enqueues_first_config_only
    (registry : String → List Config) (name jobId : String) (now : Rat)
    (st : ServerState) (c : Config) (cs : List Config)
    (jobIds : List String)
    (hreg : registry name = c :: cs)
    (hfresh : ∀ r ∈ st.queue, r.jobId ≠ jobId)
    (hlen : jobIds.length = (c :: cs).length)
    (hnodup : jobIds.Nodup)
    (hfreshB : ∀ i ∈ jobIds, ∀ r ∈ st.queue, r.jobId ≠ i) :
    handleCrawlNamed registry name jobId now st
      = (CrawlResponse.accepted202 jobId name,
         { store := createJob jobId
             { c with outputFileName := some (generateOutputFileName name) }
             st.store,
           queue := st.queue ++ [newQueueRow now jobId
             { config :=
                 { c with outputFileName := some (generateOutputFileName name) },
               jobName := name } 0 3 st.queue] }) ∧
    (handleCrawlBatch registry name jobIds now st).1
      = CrawlResponse.acceptedBatch202 name (c :: cs).length ∧
    (handleCrawlBatch registry name jobIds now st).2.queue.length
      = st.queue.length + (c :: cs).length ∧
    ((handleCrawlBatch registry name jobIds now st).2.queue.drop
        st.queue.length).map (fun r => r.data.config)
      = (c :: cs).map (fun cfg =>
          { cfg with outputFileName := some (generateOutputFileName name) }) := by
  have hle : jobIds.length ≤ (c :: cs).length := le_of_eq hlen
  have hge : (c :: cs).length ≤ jobIds.length := le_of_eq hlen.symm
  have hfst : (jobIds.zip (c :: cs)).map Prod.fst = jobIds :=
    List.map_fst_zip jobIds (c :: cs) hle
  have hsnd : (jobIds.zip (c :: cs)).map Prod.snd = c :: cs :=
    List.map_snd_zip jobIds (c :: cs) hge
  have hpairs_fresh : ∀ pr ∈ jobIds.zip (c :: cs), ∀ r ∈ st.queue,
      r.jobId ≠ pr.1 := by
    intro pr hpr r hr
    exact hfreshB pr.1 (List.of_mem_zip hpr).1 r hr
  have hpairs_nodup : ((jobIds.zip (c :: cs)).map Prod.fst).Nodup := by
    rw [hfst]; exact hnodup
  obtain ⟨hok, tail, hq, hcfg, _⟩ :=
    batchGo_spec now name (jobIds.zip (c :: cs)) st hpairs_fresh hpairs_nodup
  have htail_len : tail.length = (c :: cs).length := by
    have h1 := congrArg List.length hcfg
    simp only [List.length_map] at h1
    have h2 := congrArg List.length hsnd
    simp only [List.length_map] at h2
    rw [h1, ← h2]
  have hbatch : handleCrawlBatch registry name jobIds now st
      = (CrawlResponse.acceptedBatch202 name (c :: cs).length,
         (batchGo now name (jobIds.zip (c :: cs)) st).2) := by
    unfold handleCrawlBatch
    rw [hreg]
    dsimp only
    rw [hok]
    simp
  refine ⟨?_, ?_, ?_, ?_⟩
  · unfold handleCrawlNamed
    rw [hreg]
    dsimp only
    have hadd : queueAdd now jobId
        { config := { c with outputFileName := some (generateOutputFileName name) },
          jobName := name } 0 3 st.queue
        = Except.ok (st.queue ++ [newQueueRow now jobId
            { config := { c with outputFileName := some (generateOutputFileName name) },
              jobName := name } 0 3 st.queue]) := by
      unfold queueAdd
      rw [if_neg ?hc2]
      case hc2 =>
        rw [List.any_eq_true]
        rintro ⟨r, hr, hdec⟩
        rw [decide_eq_true_eq] at hdec
        exact hfresh r hr hdec
    rw [hadd]
  · rw [hbatch]
  · rw [hbatch]
    dsimp only
    rw [hq]
    simp [htail_len]
  · rw [hbatch]
    dsimp only
    rw [hq, List.drop_left, hcfg]
    have : (jobIds.zip (c :: cs)).map (fun pr =>
        { pr.2 with outputFileName := some (generateOutputFileName name) })
      = ((jobIds.zip (c :: cs)).map Prod.snd).map (fun cfg =>
          { cfg with outputFileName := some (generateOutputFileName name) }) := by
      rw [List.map_map]
      rfl
    rw [this, hsnd]

end ContextCrawler

namespace ContextCrawler

/-- Witness for C10 on the sample registry: submitting job `"zod"` with a
fresh job id on empty stores. -/
theorem c10_witness :
    handleCrawlNamed sampleRegistry "zod" "u0" 0 ⟨[], []⟩
      = (CrawlResponse.accepted202 "u0" "zod",
         { store := createJob "u0"
             { sampleConfigA with
               outputFileName := some (generateOutputFileName "zod") } [],
           queue := [] ++ [newQueueRow 0 "u0"
             { config :=
                 { sampleConfigA with
                   outputFileName := some (generateOutputFileName "zod") },
               jobName := "zod" } 0 3 []] }) ∧
    (handleCrawlBatch sampleRegistry "zod" ["u1", "u2"] 0 ⟨[], []⟩).1
      = CrawlResponse.acceptedBatch202 "zod" [sampleConfigA, sampleConfigB].length ∧
    (handleCrawlBatch sampleRegistry "zod" ["u1", "u2"] 0 ⟨[], []⟩).2.queue.length
      = ([] : List QRow).length + [sampleConfigA, sampleConfigB].length ∧
    ((handleCrawlBatch sampleRegistry "zod" ["u1", "u2"] 0 ⟨[], []⟩).2.queue.drop
        ([] : List QRow).length).map (fun r => r.data.config)
      = [sampleConfigA, sampleConfigB].map (fun cfg =>
          { cfg with outputFileName := some (generateOutputFileName "zod") }) :=
  c10_named_crawl_enqueues_first_config_only sampleRegistry "zod" "u0" 0
    ⟨[], []⟩ sampleConfigA [sampleConfigB] ["u1", "u2"]
    (by rfl) (by simp) (by rfl) (by decide) (by simp)

end ContextCrawler
